import Mathlib

/-!
# StatsLib: inverse of the regularized incomplete beta function

A shallow embedding of `incomplete_beta_inv` (include/misc/incomplete_beta_inv.hpp).

Modelling conventions.

* `double` is idealised as a linearly ordered field `α` with exact arithmetic: no rounding,
  no NaN, no infinities (division by zero follows the field convention `x / 0 = 0`).
* The C library functions `std::lgamma`, `std::log`, `std::exp`, `std::sqrt`, `std::pow`
  and the forward evaluator `incomplete_beta` (whose definition is not part of the
  translated sources) are supplied through a record `MathEnv`.
* The output parameter `double& ret` is modelled by passing in the value the caller's
  variable holds before the call (`ret0`) and returning the value it holds afterwards.
* `lgamma_calls` and `ib_calls` are ghost counters: they record how many times
  `std::lgamma` and `incomplete_beta` have been called.
* Decimal literals of the source are written as the exact fractions they denote
  (`0.8 = 4/5`, `1.2 = 6/5`, `1E-08 = 1/100000000`, ...).

The general theorems hold for every ordered field and every choice of the external
functions.  Concrete runs are evaluated over the reals with `Real.log`, `Real.exp`,
`Real.sqrt`, the real power function (only ever applied to non-negative bases there) and
`log (Gamma x)` for `lgamma`; for `b = 1` the forward evaluator is the closed form
`I_x(a, 1) = x^a`.  Every iterate of these runs at which `log` is taken lies in `(0, 1)`, so
the exact model and the C semantics agree on them up to rounding.
-/

namespace Stats

/-- External numeric collaborators of `incomplete_beta_inv`; `incomplete_beta a b x` is the
value the forward evaluator stores in its output argument `ib_val`. -/
structure MathEnv (α : Type) where
  lgamma : α → α
  log : α → α
  exp : α → α
  sqrt : α → α
  pow : α → α → α
  incomplete_beta : α → α → α → α

/-- Mutable locals of the refinement loop that survive an iteration. -/
structure LoopState (α : Type) where
  value : α
  halley_direc : α
  iter : Nat
  ib_calls : Nat

/-- What the caller observes: the returned flag and the content of `ret` after the call,
together with the ghost call counters. -/
structure Outcome (α : Type) where
  success : Bool
  ret : α
  lgamma_calls : Nat
  ib_calls : Nat

section Defs

variable {α : Type} [LinearOrderedField α]

/-- The constant `int iter_max = 1000`. -/
def iter_max : Nat := 1000

/-- The constant `double err_tol = 1E-08`. -/
def err_tol : α := 1 / 100000000

/-- Line 47: `lgamma(alpha_par) + lgamma(beta_par) - lgamma(alpha_par + beta_par)`. -/
def lbeta (env : MathEnv α) (alpha_par beta_par : α) : α :=
  env.lgamma alpha_par + env.lgamma beta_par - env.lgamma (alpha_par + beta_par)

/-- Lines 49-85: the closed-form starting value, in its two regimes. -/
def initial_guess (env : MathEnv α) (alpha_par beta_par p : α) : α :=
  if alpha_par > 1 ∧ beta_par > 1 then
    let p_term := if p > 1 / 2 then env.log (1 - p) else env.log p
    let t_val := env.sqrt (-2 * p_term)
    let c_0 : α := 2515517 / 1000000
    let c_1 : α := 802853 / 1000000
    let c_2 : α := 10328 / 1000000
    let d_0 : α := 1
    let d_1 : α := 1432788 / 1000000
    let d_2 : α := 189269 / 1000000
    let d_3 : α := 1308 / 1000000
    let value := t_val - (c_0 + c_1 * t_val + c_2 * t_val * t_val)
      / (d_0 + d_1 * t_val + d_2 * t_val * t_val + d_3 * t_val * t_val * t_val)
    let value := if p > 1 / 2 then value * (-1) else value
    let ab_term_1 := 1 / (2 * alpha_par - 1) + 1 / (2 * beta_par - 1)
    let ab_term_2 := 1 / (2 * beta_par - 1) - 1 / (2 * alpha_par - 1)
    let lambda := (value * value - 3) / 6
    let h_term := 2 / ab_term_1
    let w_term := value * env.sqrt (h_term + lambda) / h_term
      - ab_term_2 * (lambda + 5 / 6 - 2 / (3 * h_term))
    alpha_par / (alpha_par + beta_par * env.exp (2 * w_term))
  else
    let term_1 := env.pow (alpha_par / (alpha_par + beta_par)) alpha_par / alpha_par
    let term_2 := env.pow (beta_par / (alpha_par + beta_par)) beta_par / beta_par
    let s_val := term_1 + term_2
    let check_val := term_1 / s_val
    if p ≤ check_val then
      env.pow (p * s_val * alpha_par) (1 / alpha_par)
    else
      1 - env.pow (p * s_val * beta_par) (1 / beta_par)

/-- Line 108: `ratio_val_1 / max(0.8, min(1.2, 1.0 - 0.5*ratio_val_1*ratio_val_2))`. -/
def damped_direc (ratio_val_1 ratio_val_2 : α) : α :=
  ratio_val_1 / max (4 / 5) (min (6 / 5) (1 - 1 / 2 * ratio_val_1 * ratio_val_2))

/-- Lines 105-106 at the iterate `value`: the Newton ratio `err_val / deriv_1`. -/
def ratio_val_1 (env : MathEnv α) (alpha_par beta_par p lbeta value : α) : α :=
  let ib_val := env.incomplete_beta alpha_par beta_par value
  let err_val := ib_val - p
  let deriv_1 := env.exp ((alpha_par - 1) * env.log value
    + (beta_par - 1) * env.log (1 - value) - lbeta)
  err_val / deriv_1

/-- Lines 97-113: one pass through the body of the `while` loop. -/
def halley_step (env : MathEnv α) (alpha_par beta_par p lbeta : α)
    (st : LoopState α) : LoopState α :=
  let ib_val := env.incomplete_beta alpha_par beta_par st.value
  let err_val := ib_val - p
  let deriv_1 := env.exp ((alpha_par - 1) * env.log st.value
    + (beta_par - 1) * env.log (1 - st.value) - lbeta)
  let deriv_2 := deriv_1 * ((alpha_par - 1) / st.value - (beta_par - 1) / (1 - st.value))
  let ratio_val_1 := err_val / deriv_1
  let ratio_val_2 := deriv_2 / deriv_1
  let halley_direc := damped_direc ratio_val_1 ratio_val_2
  let value := st.value - halley_direc
  let value := if value ≤ 0 then 1 / 2 * (value + halley_direc) else value
  { value := value, halley_direc := halley_direc,
    iter := st.iter + 1, ib_calls := st.ib_calls + 1 }

/-- Line 96: the guard of the `while` loop. -/
def loop_cond (st : LoopState α) : Prop :=
  |st.halley_direc| ≥ err_tol ∧ st.iter < iter_max

instance (st : LoopState α) : Decidable (loop_cond st) := by
  unfold loop_cond; infer_instance

/-- Lines 96-114: the `while` loop, run to its exit. -/
def halley_loop (env : MathEnv α) (alpha_par beta_par p lbeta : α)
    (st : LoopState α) : LoopState α :=
  if loop_cond st then
    halley_loop env alpha_par beta_par p lbeta (halley_step env alpha_par beta_par p lbeta st)
  else
    st
termination_by iter_max - st.iter
decreasing_by
  rename_i h
  have h2 : st.iter < iter_max := h.2
  simp only [halley_step]
  omega

/-- Lines 93-94: the loop state on entry (`iter = 0`, `halley_direc = 1.0`). -/
def loop_init (value : α) : LoopState α :=
  { value := value, halley_direc := 1, iter := 0, ib_calls := 0 }

/-- Lines 32-122: `incomplete_beta_inv(alpha_par, beta_par, p, ret)`; `ret0` is the content
of `ret` before the call. -/
def incomplete_beta_inv (env : MathEnv α) (alpha_par beta_par p ret0 : α) : Outcome α :=
  if alpha_par = 1 ∧ beta_par = 1 then
    { success := true, ret := p, lgamma_calls := 0, ib_calls := 0 }
  else
    let lbeta := lbeta env alpha_par beta_par
    let value := initial_guess env alpha_par beta_par p
    if value ≤ 0 then
      { success := false, ret := 0, lgamma_calls := 3, ib_calls := 0 }
    else
      let st := halley_loop env alpha_par beta_par p lbeta (loop_init value)
      if |st.halley_direc| < err_tol ∧ st.iter < iter_max then
        { success := true, ret := st.value, lgamma_calls := 3, ib_calls := st.ib_calls }
      else
        { success := false, ret := ret0, lgamma_calls := 3, ib_calls := st.ib_calls }

end Defs

section RealModel

/-- The external functions are the real-valued mathematical functions: `lgamma` is
`log |Gamma|`, `pow` is the real power function. -/
def IsRealEnv (env : MathEnv ℝ) : Prop :=
  env.lgamma = (fun x => Real.log (Real.Gamma x)) ∧ env.log = Real.log ∧
  env.exp = Real.exp ∧ env.sqrt = Real.sqrt ∧ env.pow = (fun x y => x ^ y)

end RealModel


section Lemmas

variable {α : Type} [LinearOrderedField α]

theorem halley_loop_unfold (env : MathEnv α) (a b p lb : α) (st : LoopState α) :
    halley_loop env a b p lb st =
      if loop_cond st then halley_loop env a b p lb (halley_step env a b p lb st) else st := by
  rw [halley_loop]

theorem halley_loop_of_cond (env : MathEnv α) (a b p lb : α) (st : LoopState α)
    (h : loop_cond st) :
    halley_loop env a b p lb st = halley_loop env a b p lb (halley_step env a b p lb st) := by
  rw [halley_loop_unfold, if_pos h]

theorem halley_loop_of_not_cond (env : MathEnv α) (a b p lb : α) (st : LoopState α)
    (h : ¬ loop_cond st) : halley_loop env a b p lb st = st := by
  rw [halley_loop_unfold, if_neg h]

theorem halley_step_iter (env : MathEnv α) (a b p lb : α) (st : LoopState α) :
    (halley_step env a b p lb st).iter = st.iter + 1 := rfl

theorem halley_step_ib_calls (env : MathEnv α) (a b p lb : α) (st : LoopState α) :
    (halley_step env a b p lb st).ib_calls = st.ib_calls + 1 := rfl

/-- The loop is left only when its guard is false. -/
theorem halley_loop_exit (env : MathEnv α) (a b p lb : α) (st : LoopState α) :
    ¬ loop_cond (halley_loop env a b p lb st) := by
  induction st using halley_loop.induct env a b p lb with
  | case1 x hc ih => rwa [halley_loop_of_cond env a b p lb x hc]
  | case2 x hc => rwa [halley_loop_of_not_cond env a b p lb x hc]

/-- The counter never passes `iter_max`. -/
theorem halley_loop_iter_le (env : MathEnv α) (a b p lb : α) (st : LoopState α)
    (h : st.iter ≤ iter_max) : (halley_loop env a b p lb st).iter ≤ iter_max := by
  induction st using halley_loop.induct env a b p lb with
  | case1 x hc ih =>
    rw [halley_loop_of_cond env a b p lb x hc]
    apply ih
    rw [halley_step_iter]
    exact hc.2
  | case2 x hc => rwa [halley_loop_of_not_cond env a b p lb x hc]

/-- Forward evaluations and loop iterations advance together. -/
theorem halley_loop_calls (env : MathEnv α) (a b p lb : α) (st : LoopState α)
    (h : st.ib_calls = st.iter) :
    (halley_loop env a b p lb st).ib_calls = (halley_loop env a b p lb st).iter := by
  induction st using halley_loop.induct env a b p lb with
  | case1 x hc ih =>
    rw [halley_loop_of_cond env a b p lb x hc]
    apply ih
    rw [halley_step_iter, halley_step_ib_calls, h]
  | case2 x hc => rwa [halley_loop_of_not_cond env a b p lb x hc]

theorem loop_cond_init (value : α) : loop_cond (loop_init value) := by
  unfold loop_cond loop_init err_tol iter_max
  simp only [abs_one]
  constructor
  · norm_num
  · norm_num

/-- The clamped denominator of line 108 lies in `[0.8, 1.2]`. -/
theorem clamp_bounds (x : α) :
    (4 / 5 : α) ≤ max (4 / 5) (min (6 / 5) x) ∧ max (4 / 5) (min (6 / 5) x) ≤ 6 / 5 := by
  refine ⟨le_max_left _ _, max_le (by norm_num) (min_le_left _ _)⟩

theorem abs_damped_direc (r1 r2 : α) :
    |damped_direc r1 r2| = |r1| / max (4 / 5) (min (6 / 5) (1 - 1 / 2 * r1 * r2)) := by
  have hb := clamp_bounds (1 - 1 / 2 * r1 * r2)
  have hpos : (0 : α) < max (4 / 5) (min (6 / 5) (1 - 1 / 2 * r1 * r2)) :=
    lt_of_lt_of_le (by norm_num) hb.1
  unfold damped_direc
  rw [abs_div, abs_of_pos hpos]

theorem abs_damped_direc_ge (r1 r2 : α) : |r1| / (6 / 5) ≤ |damped_direc r1 r2| := by
  have hb := clamp_bounds (1 - 1 / 2 * r1 * r2)
  have hpos : (0 : α) < max (4 / 5) (min (6 / 5) (1 - 1 / 2 * r1 * r2)) :=
    lt_of_lt_of_le (by norm_num) hb.1
  rw [abs_damped_direc]
  exact div_le_div_of_nonneg_left (abs_nonneg r1) hpos hb.2

theorem abs_damped_direc_le (r1 r2 : α) : |damped_direc r1 r2| ≤ 5 / 4 * |r1| := by
  have hb := clamp_bounds (1 - 1 / 2 * r1 * r2)
  have hpos : (0 : α) < max (4 / 5) (min (6 / 5) (1 - 1 / 2 * r1 * r2)) :=
    lt_of_lt_of_le (by norm_num) hb.1
  rw [abs_damped_direc, div_le_iff₀ hpos]
  have := abs_nonneg r1
  nlinarith [mul_le_mul_of_nonneg_left hb.1 this]

end Lemmas

section Lemmas2

variable {α : Type} [LinearOrderedField α]

/-- A loop that runs at all ends on the result of a step taken from a state that satisfied
the guard; an invariant preserved by the step holds at that state. -/
theorem halley_loop_last_inv (env : MathEnv α) (a b p lb : α) (Inv : LoopState α → Prop)
    (hstep : ∀ st, Inv st → Inv (halley_step env a b p lb st))
    (st : LoopState α) (h0 : Inv st) (h : loop_cond st) :
    ∃ prev, Inv prev ∧ loop_cond prev ∧
      halley_loop env a b p lb st = halley_step env a b p lb prev := by
  induction st using halley_loop.induct env a b p lb with
  | case1 x hc ih =>
    rw [halley_loop_of_cond env a b p lb x hc]
    by_cases hn : loop_cond (halley_step env a b p lb x)
    · exact ih (hstep x h0) hn
    · exact ⟨x, h0, hc, halley_loop_of_not_cond env a b p lb _ hn⟩
  | case2 x hc => exact absurd h hc

/-- The boundary safeguard keeps a positive iterate positive. -/
theorem halley_step_value_pos (env : MathEnv α) (a b p lb : α) (st : LoopState α)
    (h : 0 < st.value) : 0 < (halley_step env a b p lb st).value := by
  simp only [halley_step]
  split_ifs with hle
  · rw [sub_add_cancel]
    positivity
  · exact not_le.mp hle

theorem halley_step_direc (env : MathEnv α) (a b p lb : α) (st : LoopState α) :
    ∃ r2, (halley_step env a b p lb st).halley_direc
      = damped_direc (ratio_val_1 env a b p lb st.value) r2 :=
  ⟨_, rfl⟩

theorem halley_step_value (env : MathEnv α) (a b p lb : α) (st : LoopState α) :
    (halley_step env a b p lb st).value =
      if st.value - (halley_step env a b p lb st).halley_direc ≤ 0 then 1 / 2 * st.value
      else st.value - (halley_step env a b p lb st).halley_direc := by
  simp only [halley_step]
  split_ifs with hle
  · rw [sub_add_cancel]
  · rfl

theorem damped_direc_pos (r1 r2 : α) (h : 0 < r1) : 0 < damped_direc r1 r2 := by
  have hb := clamp_bounds (1 - 1 / 2 * r1 * r2)
  have hpos : (0 : α) < max (4 / 5) (min (6 / 5) (1 - 1 / 2 * r1 * r2)) :=
    lt_of_lt_of_le (by norm_num) hb.1
  exact div_pos h hpos

theorem damped_direc_neg (r1 r2 : α) (h : r1 < 0) : damped_direc r1 r2 < 0 := by
  have hb := clamp_bounds (1 - 1 / 2 * r1 * r2)
  have hpos : (0 : α) < max (4 / 5) (min (6 / 5) (1 - 1 / 2 * r1 * r2)) :=
    lt_of_lt_of_le (by norm_num) hb.1
  exact div_neg_of_neg_of_pos h hpos

theorem damped_direc_zero (r2 : α) : damped_direc 0 r2 = 0 := by
  unfold damped_direc; exact zero_div _

end Lemmas2

section Claims

variable {α : Type} [LinearOrderedField α]

/-- C2: for every `p` (and every choice of the external functions), the call
`incomplete_beta_inv(1, 1, p, ret)` returns `true` with `ret` exactly `p`; no `lgamma`
call and no forward evaluation takes place, and no external function influences the
result. -/
theorem C2_uniform_exact (env : MathEnv α) (p ret0 : α) :
    incomplete_beta_inv env 1 1 p ret0
      = { success := true, ret := p, lgamma_calls := 0, ib_calls := 0 } := by
  simp [incomplete_beta_inv]

/-- C4: when `a`, `b` are not both 1 and the initial guess is positive, the routine returns
`true` exactly when the loop is left with `|halley_direc| < 1e-8` and `iter < 1000`, and
whenever it returns `true` the output `ret` is the final iterate. -/
theorem C4_success_classification (env : MathEnv α) (a b p ret0 : α)
    (hab : ¬ (a = 1 ∧ b = 1)) (hpos : 0 < initial_guess env a b p) :
    ((incomplete_beta_inv env a b p ret0).success = true ↔
      (|(halley_loop env a b p (lbeta env a b)
          (loop_init (initial_guess env a b p))).halley_direc| < 1 / 100000000 ∧
        (halley_loop env a b p (lbeta env a b)
          (loop_init (initial_guess env a b p))).iter < 1000)) ∧
    ((incomplete_beta_inv env a b p ret0).success = true →
      (incomplete_beta_inv env a b p ret0).ret =
        (halley_loop env a b p (lbeta env a b)
          (loop_init (initial_guess env a b p))).value) := by
  have h1 : ¬ initial_guess env a b p ≤ 0 := not_le.mpr hpos
  simp only [incomplete_beta_inv, if_neg hab, if_neg h1]
  by_cases h2 : |(halley_loop env a b p (lbeta env a b)
      (loop_init (initial_guess env a b p))).halley_direc| < err_tol ∧
      (halley_loop env a b p (lbeta env a b)
        (loop_init (initial_guess env a b p))).iter < iter_max
  · simp only [if_pos h2, true_iff, forall_const, and_true]
    exact h2
  · simp only [if_neg h2, Bool.false_eq_true, false_iff, false_implies, and_true]
    exact h2

/-- C6: for every input and every choice of the external functions (the forward evaluator
included) the routine is a total function whose result records at most 1000 forward
evaluations; the loop, started from any initial guess, is left with its guard false, with
`iter <= 1000`, and after exactly `iter` forward evaluations. -/
theorem C6_iteration_cap (env : MathEnv α) (a b p ret0 : α) :
    (incomplete_beta_inv env a b p ret0).ib_calls ≤ 1000 ∧
    ∀ value : α,
      (halley_loop env a b p (lbeta env a b) (loop_init value)).iter ≤ 1000 ∧
      (halley_loop env a b p (lbeta env a b) (loop_init value)).ib_calls
        = (halley_loop env a b p (lbeta env a b) (loop_init value)).iter ∧
      ¬ loop_cond (halley_loop env a b p (lbeta env a b) (loop_init value)) := by
  have key : ∀ value : α,
      (halley_loop env a b p (lbeta env a b) (loop_init value)).iter ≤ 1000 ∧
      (halley_loop env a b p (lbeta env a b) (loop_init value)).ib_calls
        = (halley_loop env a b p (lbeta env a b) (loop_init value)).iter ∧
      ¬ loop_cond (halley_loop env a b p (lbeta env a b) (loop_init value)) := by
    intro value
    refine ⟨?_, ?_, halley_loop_exit env a b p _ _⟩
    · exact halley_loop_iter_le env a b p _ _ (by simp [loop_init, iter_max])
    · exact halley_loop_calls env a b p _ _ rfl
  refine ⟨?_, key⟩
  have hk := key (initial_guess env a b p)
  simp only [incomplete_beta_inv]
  split_ifs <;> simp only [Nat.zero_le] <;> omega

/-- C10: the damped direction `r1 / max(0.8, min(1.2, 1 - 0.5*r1*r2))` has the sign of the
Newton ratio `r1` and satisfies `|r1| / 1.2 <= |direction| <= 1.25 * |r1|`; in every
refinement step `halley_direc` is this expression at the step's Newton ratio. -/
theorem C10_damping_bound :
    (∀ r1 r2 : α,
      SignType.sign (damped_direc r1 r2) = SignType.sign r1 ∧
      |r1| / (6 / 5) ≤ |damped_direc r1 r2| ∧
      |damped_direc r1 r2| ≤ 5 / 4 * |r1|) ∧
    (∀ (env : MathEnv α) (a b p lb : α) (st : LoopState α),
      ∃ r2, (halley_step env a b p lb st).halley_direc
        = damped_direc (ratio_val_1 env a b p lb st.value) r2 ∧
      damped_direc (ratio_val_1 env a b p lb st.value) r2
        = ratio_val_1 env a b p lb st.value
          / max (4 / 5) (min (6 / 5) (1 - 1 / 2 * ratio_val_1 env a b p lb st.value * r2))) := by
  refine ⟨fun r1 r2 => ⟨?_, abs_damped_direc_ge r1 r2, abs_damped_direc_le r1 r2⟩, ?_⟩
  · rcases lt_trichotomy r1 0 with h | h | h
    · rw [sign_neg h, sign_neg (damped_direc_neg r1 r2 h)]
    · subst h
      rw [damped_direc_zero]
    · rw [sign_pos h, sign_pos (damped_direc_pos r1 r2 h)]
  · intro env a b p lb st
    exact ⟨_, rfl, rfl⟩

end Claims


section ForwardEvaluator

/-- For `b = 1` the regularized incomplete beta function, the ratio of the incomplete to
the complete beta integral, has the closed form `x^a`; this is the forward evaluator used
in the instances with `b = 1` below. -/
theorem reg_inc_beta_b_one (a x : ℝ) (ha : 0 < a) :
    (∫ t in (0 : ℝ)..x, t ^ (a - 1) * (1 - t) ^ ((1 : ℝ) - 1))
      / (∫ t in (0 : ℝ)..1, t ^ (a - 1) * (1 - t) ^ ((1 : ℝ) - 1)) = x ^ a := by
  have hr : (-1 : ℝ) < a - 1 := by linarith
  simp only [sub_self, Real.rpow_zero, mul_one]
  rw [integral_rpow (Or.inl hr), integral_rpow (Or.inl hr)]
  simp only [sub_add_cancel, Real.one_rpow, Real.zero_rpow ha.ne', sub_zero]
  field_simp

end ForwardEvaluator

section Unfolding

variable {α : Type} [LinearOrderedField α]

theorem inv_eq_of_nonpos (env : MathEnv α) (a b p ret0 : α) (hab : ¬ (a = 1 ∧ b = 1))
    (h : initial_guess env a b p ≤ 0) :
    incomplete_beta_inv env a b p ret0
      = { success := false, ret := 0, lgamma_calls := 3, ib_calls := 0 } := by
  unfold incomplete_beta_inv
  rw [if_neg hab]
  simp only [if_pos h]

theorem inv_eq_of_pos (env : MathEnv α) (a b p ret0 : α) (hab : ¬ (a = 1 ∧ b = 1))
    (h : 0 < initial_guess env a b p) :
    incomplete_beta_inv env a b p ret0 =
      if |(halley_loop env a b p (lbeta env a b)
            (loop_init (initial_guess env a b p))).halley_direc| < err_tol ∧
          (halley_loop env a b p (lbeta env a b)
            (loop_init (initial_guess env a b p))).iter < iter_max then
        { success := true,
          ret := (halley_loop env a b p (lbeta env a b)
            (loop_init (initial_guess env a b p))).value,
          lgamma_calls := 3,
          ib_calls := (halley_loop env a b p (lbeta env a b)
            (loop_init (initial_guess env a b p))).ib_calls }
      else
        { success := false, ret := ret0, lgamma_calls := 3,
          ib_calls := (halley_loop env a b p (lbeta env a b)
            (loop_init (initial_guess env a b p))).ib_calls } := by
  unfold incomplete_beta_inv
  rw [if_neg hab]
  simp only [if_neg (not_le.mpr h)]

/-- On every path that returns `false` the output `ret` is either the placeholder `0`
written by the domain guard or the content it had before the call: line 117 is the only
place where an iterate is stored in `ret`, and it lies inside the success guard. -/
theorem ret_on_failure (env : MathEnv α) (a b p ret0 : α) :
    (incomplete_beta_inv env a b p ret0).success = true ∨
      (incomplete_beta_inv env a b p ret0).ret = 0 ∨
      (incomplete_beta_inv env a b p ret0).ret = ret0 := by
  by_cases hab : a = 1 ∧ b = 1
  · left
    unfold incomplete_beta_inv
    rw [if_pos hab]
  · by_cases hg : initial_guess env a b p ≤ 0
    · right; left
      rw [inv_eq_of_nonpos env a b p ret0 hab hg]
    · rw [inv_eq_of_pos env a b p ret0 hab (not_le.mp hg)]
      split_ifs
      · exact Or.inl rfl
      · exact Or.inr (Or.inr rfl)

end Unfolding

section PowerRegime

variable {α : Type} [LinearOrderedField α]

end PowerRegime

section RealInstances

theorem guess_1_2_high (env : MathEnv ℝ) (h : IsRealEnv env) :
    initial_guess env 1 2 (19 / 20) = 1 - (19 / 18 : ℝ) ^ (1 / 2 : ℝ) := by
  obtain ⟨-, -, -, -, hpow⟩ := h
  simp only [initial_guess, hpow]
  norm_num

theorem guess_1_2_high_neg (env : MathEnv ℝ) (h : IsRealEnv env) :
    initial_guess env 1 2 (19 / 20) < 0 := by
  rw [guess_1_2_high env h]
  have : (1 : ℝ) < (19 / 18 : ℝ) ^ (1 / 2 : ℝ) :=
    Real.one_lt_rpow (by norm_num) (by norm_num)
  linarith

/-- Supporting fact for C7: were the second branch of the power regime evaluated at the
upper-tail mass `1 - p` instead of `p`, its value `1 - ((1-p)*s*b)^(1/b)` would lie in
`(0, 1)` for every `a > 0`, `b > 0` and every `p < 1` that takes this branch. -/
theorem upper_tail_guess_in_unit (a b p : ℝ) (ha : 0 < a) (hb : 0 < b) (hp1 : p < 1)
    (hchk : ¬ p ≤ ((a / (a + b)) ^ a / a) / ((a / (a + b)) ^ a / a + (b / (a + b)) ^ b / b)) :
    0 < 1 - ((1 - p) * ((a / (a + b)) ^ a / a + (b / (a + b)) ^ b / b) * b) ^ (1 / b) ∧
    1 - ((1 - p) * ((a / (a + b)) ^ a / a + (b / (a + b)) ^ b / b) * b) ^ (1 / b) < 1 := by
  have hsum : 0 < a + b := add_pos ha hb
  have hx : 0 < b / (a + b) := div_pos hb hsum
  have hx1 : b / (a + b) < 1 := by
    rw [div_lt_one hsum]
    linarith
  have hpb : (b / (a + b)) ^ b < 1 := Real.rpow_lt_one hx.le hx1 hb
  have ht1 : 0 < (a / (a + b)) ^ a / a :=
    div_pos (Real.rpow_pos_of_pos (div_pos ha hsum) _) ha
  have ht2 : 0 < (b / (a + b)) ^ b / b := div_pos (Real.rpow_pos_of_pos hx _) hb
  have hs : 0 < (a / (a + b)) ^ a / a + (b / (a + b)) ^ b / b := add_pos ht1 ht2
  have hlt := not_le.mp hchk
  rw [div_lt_iff₀ hs] at hlt
  have hbase_pos : 0 < (1 - p) * ((a / (a + b)) ^ a / a + (b / (a + b)) ^ b / b) * b :=
    mul_pos (mul_pos (by linarith) hs) hb
  have hbase_lt : (1 - p) * ((a / (a + b)) ^ a / a + (b / (a + b)) ^ b / b) * b < 1 := by
    have h1 : (1 - p) * ((a / (a + b)) ^ a / a + (b / (a + b)) ^ b / b)
        < (b / (a + b)) ^ b / b := by linarith
    have h2 := mul_lt_mul_of_pos_right h1 hb
    rw [div_mul_cancel₀ _ hb.ne'] at h2
    linarith
  have hpow_lt := Real.rpow_lt_one hbase_pos.le hbase_lt (one_div_pos.mpr hb)
  have hpow_pos := Real.rpow_pos_of_pos hbase_pos (1 / b)
  constructor <;> linarith

/-- C7 (evaluation at a failing input): with the real power function, the valid interior
input `a = 1`, `b = 2`, `p = 0.95` takes the branch `p > term_1 / s`, its initial guess
`1 - (p*s*b)^(1/b) = 1 - (19/18)^(1/2)` is negative, and the routine returns `false` with
`ret = 0`. -/
theorem C7_interior_input_rejected (ret0 : ℝ) :
    initial_guess (⟨fun x => Real.log (Real.Gamma x), Real.log, Real.exp, Real.sqrt,
        fun x y => x ^ y, fun a _ x => x ^ a⟩ : MathEnv ℝ) 1 2 (19 / 20)
      = 1 - (19 / 18 : ℝ) ^ (1 / 2 : ℝ) ∧
    initial_guess (⟨fun x => Real.log (Real.Gamma x), Real.log, Real.exp, Real.sqrt,
        fun x y => x ^ y, fun a _ x => x ^ a⟩ : MathEnv ℝ) 1 2 (19 / 20) < 0 ∧
    incomplete_beta_inv (⟨fun x => Real.log (Real.Gamma x), Real.log, Real.exp, Real.sqrt,
        fun x y => x ^ y, fun a _ x => x ^ a⟩ : MathEnv ℝ) 1 2 (19 / 20) ret0
      = { success := false, ret := 0, lgamma_calls := 3, ib_calls := 0 } := by
  have henv : IsRealEnv (⟨fun x => Real.log (Real.Gamma x), Real.log, Real.exp, Real.sqrt,
      fun x y => x ^ y, fun a _ x => x ^ a⟩ : MathEnv ℝ) := ⟨rfl, rfl, rfl, rfl, rfl⟩
  refine ⟨guess_1_2_high _ henv, guess_1_2_high_neg _ henv, ?_⟩
  exact inv_eq_of_nonpos _ 1 2 (19 / 20) ret0 (by norm_num)
    (le_of_lt (guess_1_2_high_neg _ henv))

end RealInstances

section BetaOne

theorem lbeta_b_one (env : MathEnv ℝ) (h : IsRealEnv env) (a : ℝ) (ha : 0 < a) :
    lbeta env a 1 = - Real.log a := by
  obtain ⟨hlg, -⟩ := h
  simp only [lbeta, hlg]
  rw [Real.Gamma_one, Real.log_one, Real.Gamma_add_one ha.ne',
    Real.log_mul ha.ne' (Real.Gamma_pos_of_pos ha).ne']
  ring

theorem deriv_1_b_one (a v : ℝ) (ha : 0 < a) (hv : 0 < v) :
    Real.exp ((a - 1) * Real.log v + (1 - 1) * Real.log (1 - v) - (- Real.log a))
      = a * v ^ (a - 1) := by
  rw [Real.rpow_def_of_pos hv]
  have : (a - 1) * Real.log v + (1 - 1) * Real.log (1 - v) - (- Real.log a)
      = Real.log a + Real.log v * (a - 1) := by ring
  rw [this, Real.exp_add, Real.exp_log ha]

/-- One loop pass for `b = 1` with the real functions and the forward evaluator
`I_x(a, 1) = x^a`. -/
theorem halley_step_b_one (env : MathEnv ℝ) (h : IsRealEnv env)
    (hib : env.incomplete_beta = fun a _ x => x ^ a) (a p : ℝ) (ha : 0 < a)
    (st : LoopState ℝ) (hv : 0 < st.value) :
    halley_step env a 1 p (lbeta env a 1) st =
      { value :=
          if st.value - damped_direc ((st.value ^ a - p) / (a * st.value ^ (a - 1)))
              ((a - 1) / st.value) ≤ 0 then
            1 / 2 * st.value
          else
            st.value - damped_direc ((st.value ^ a - p) / (a * st.value ^ (a - 1)))
              ((a - 1) / st.value),
        halley_direc := damped_direc ((st.value ^ a - p) / (a * st.value ^ (a - 1)))
          ((a - 1) / st.value),
        iter := st.iter + 1, ib_calls := st.ib_calls + 1 } := by
  have hd : a * st.value ^ (a - 1) ≠ 0 :=
    mul_ne_zero ha.ne' (Real.rpow_pos_of_pos hv _).ne'
  have hr2 : a * st.value ^ (a - 1) * ((a - 1) / st.value - (1 - 1) / (1 - st.value))
      / (a * st.value ^ (a - 1)) = (a - 1) / st.value := by
    rw [sub_self, zero_div, sub_zero, mul_div_assoc, mul_div_cancel₀ _ hd]
  rw [lbeta_b_one env h a ha]
  obtain ⟨-, hlog, hexp, -, -⟩ := h
  simp only [halley_step, hlog, hexp, hib]
  rw [deriv_1_b_one a st.value ha hv, hr2]
  simp only [sub_add_cancel]

end BetaOne

section UpperOvershoot

theorem damped_direc_eval_a : damped_direc (-13 / 20 : ℝ) 2 = -13 / 24 := by
  unfold damped_direc
  have h1 : min (6 / 5 : ℝ) (1 - 1 / 2 * (-13 / 20) * 2) = 6 / 5 :=
    min_eq_left (by norm_num)
  rw [h1, max_eq_right (by norm_num)]
  norm_num

theorem guess_2_1 (env : MathEnv ℝ) (h : IsRealEnv env) :
    initial_guess env 2 1 (9 / 10) = 1 / 2 := by
  obtain ⟨-, -, -, -, hpow⟩ := h
  simp only [initial_guess, hpow]
  norm_num

theorem step_2_1 (env : MathEnv ℝ) (h : IsRealEnv env)
    (hib : env.incomplete_beta = fun a _ x => x ^ a) :
    halley_step env 2 1 (9 / 10) (lbeta env 2 1) (loop_init (1 / 2))
      = { value := 25 / 24, halley_direc := -13 / 24, iter := 1, ib_calls := 1 } := by
  rw [halley_step_b_one env h hib 2 (9 / 10) (by norm_num) _ (by norm_num [loop_init])]
  have e1 : ((1 / 2 : ℝ) ^ (2 : ℝ) - 9 / 10) / (2 * (1 / 2 : ℝ) ^ ((2 : ℝ) - 1)) = -13 / 20 := by
    norm_num
  have e2 : ((2 : ℝ) - 1) / (1 / 2) = 2 := by norm_num
  simp only [loop_init]
  rw [e1, e2, damped_direc_eval_a]
  norm_num

/-- C9 (evaluation at a failing input): with the real functions and the forward evaluator
`I_x(a, 1) = x^a`, the call with `a = 2`, `b = 1`, `p = 0.9` starts from the initial guess
`0.5`, which lies in `(0, 1)`; the forward value there is `0.25`; the first refinement step
yields `halley_direc = -13/24` and the new iterate `25/24`, which is not below 1. -/
theorem C9_iterate_leaves_unit_interval :
    initial_guess (⟨fun x => Real.log (Real.Gamma x), Real.log, Real.exp, Real.sqrt,
        fun x y => x ^ y, fun a _ x => x ^ a⟩ : MathEnv ℝ) 2 1 (9 / 10) = 1 / 2 ∧
    (1 / 2 : ℝ) ^ (2 : ℝ) = 1 / 4 ∧
    halley_step (⟨fun x => Real.log (Real.Gamma x), Real.log, Real.exp, Real.sqrt,
        fun x y => x ^ y, fun a _ x => x ^ a⟩ : MathEnv ℝ) 2 1 (9 / 10)
        (lbeta (⟨fun x => Real.log (Real.Gamma x), Real.log, Real.exp, Real.sqrt,
          fun x y => x ^ y, fun a _ x => x ^ a⟩ : MathEnv ℝ) 2 1) (loop_init (1 / 2))
      = { value := 25 / 24, halley_direc := -13 / 24, iter := 1, ib_calls := 1 } ∧
    ¬ ((halley_step (⟨fun x => Real.log (Real.Gamma x), Real.log, Real.exp, Real.sqrt,
        fun x y => x ^ y, fun a _ x => x ^ a⟩ : MathEnv ℝ) 2 1 (9 / 10)
        (lbeta (⟨fun x => Real.log (Real.Gamma x), Real.log, Real.exp, Real.sqrt,
          fun x y => x ^ y, fun a _ x => x ^ a⟩ : MathEnv ℝ) 2 1)
        (loop_init (1 / 2))).value < 1) := by
  have henv : IsRealEnv (⟨fun x => Real.log (Real.Gamma x), Real.log, Real.exp, Real.sqrt,
      fun x y => x ^ y, fun a _ x => x ^ a⟩ : MathEnv ℝ) := ⟨rfl, rfl, rfl, rfl, rfl⟩
  refine ⟨guess_2_1 _ henv, by norm_num, step_2_1 _ henv rfl, ?_⟩
  rw [step_2_1 _ henv rfl]
  norm_num

end UpperOvershoot

section SmallQuantile

theorem c_pow : ((1 / 6 : ℝ) ^ (1 / 5 : ℝ)) ^ 5 = 1 / 6 := by
  rw [← Real.rpow_natCast, ← Real.rpow_mul (by norm_num)]
  norm_num

theorem c_lower : (69 / 100 : ℝ) < (1 / 6 : ℝ) ^ (1 / 5 : ℝ) := by
  by_contra hc
  have hc2 := not_lt.mp hc
  have h0 : (0 : ℝ) ≤ (1 / 6 : ℝ) ^ (1 / 5 : ℝ) := Real.rpow_nonneg (by norm_num) _
  have := pow_le_pow_left₀ h0 hc2 5
  rw [c_pow] at this
  norm_num at this

theorem c_upper : (1 / 6 : ℝ) ^ (1 / 5 : ℝ) < 7 / 10 := by
  by_contra hc
  have hc2 := not_lt.mp hc
  have := pow_le_pow_left₀ (by norm_num : (0 : ℝ) ≤ 7 / 10) hc2 5
  rw [c_pow] at this
  norm_num at this

theorem guess_small (env : MathEnv ℝ) (h : IsRealEnv env) :
    initial_guess env (1 / 5) 1 (1 / 100)
      = (1 / 100 * ((1 / 6 : ℝ) ^ (1 / 5 : ℝ) + 1 / 6)) ^ 5 := by
  obtain ⟨-, -, -, -, hpow⟩ := h
  simp only [initial_guess, hpow]
  norm_num
  have hc := c_lower
  rw [if_pos]
  · rw [show (5 : ℝ) = ((5 : ℕ) : ℝ) by norm_num, Real.rpow_natCast]
    congr 1
    ring
  · rw [le_div_iff₀ (by positivity)]
    linarith

theorem fifth_root_of_fifth_power (u : ℝ) (hu : 0 ≤ u) : (u ^ 5) ^ (1 / 5 : ℝ) = u := by
  have := Real.pow_rpow_inv_natCast hu (by norm_num : (5 : ℕ) ≠ 0)
  rw [show (1 / 5 : ℝ) = (((5 : ℕ) : ℝ))⁻¹ by norm_num]
  exact this

/-- The damped direction at the initial guess `u^5` of the run `a = 1/5`, `b = 1`,
`p = 1/100`: the clamp sits at its lower bound `0.8`. -/
theorem small_direc (u : ℝ) (hu0 : 0 < u) (hu1 : 11 * u ≤ 1 / 10) :
    damped_direc (((u ^ 5) ^ (1 / 5 : ℝ) - 1 / 100)
        / (1 / 5 * (u ^ 5) ^ ((1 / 5 : ℝ) - 1))) ((1 / 5 - 1) / u ^ 5)
      = 25 / 4 * (u - 1 / 100) * u ^ 4 := by
  have hu5 : (0 : ℝ) < u ^ 5 := by positivity
  rw [Real.rpow_sub_one hu5.ne', fifth_root_of_fifth_power u hu0.le]
  unfold damped_direc
  have hx : 1 - 1 / 2 * ((u - 1 / 100) / (1 / 5 * (u / u ^ 5))) * ((1 / 5 - 1) / u ^ 5)
      = 1 + 2 * (u - 1 / 100) / u := by
    field_simp
    ring
  have hx2 : 1 + 2 * (u - 1 / 100) / u ≤ 4 / 5 := by
    have : 2 * (u - 1 / 100) / u ≤ - (1 / 5) := by
      rw [div_le_iff₀ hu0]
      linarith
    linarith
  rw [hx, min_eq_right (by linarith), max_eq_left hx2]
  field_simp
  ring

end SmallQuantile

section SmallQuantileRun

theorem small_u_bounds (u : ℝ) (hu : u = 1 / 100 * ((1 / 6 : ℝ) ^ (1 / 5 : ℝ) + 1 / 6)) :
    257 / 30000 < u ∧ u < 13 / 1500 := by
  have h1 := c_lower
  have h2 := c_upper
  subst hu
  constructor <;> linarith

theorem small_direc_abs (u : ℝ) (h0 : 257 / 30000 < u) (h1 : u < 13 / 1500) :
    |25 / 4 * (u - 1 / 100) * u ^ 4| < 1 / 100000000 := by
  have hu0 : (0 : ℝ) < u := by linarith
  have hu4 : u ^ 4 < (1 / 100 : ℝ) ^ 4 := pow_lt_pow_left₀ (by linarith) hu0.le (by norm_num)
  have hu4pos : (0 : ℝ) < u ^ 4 := by positivity
  rw [abs_lt]
  constructor
  · nlinarith
  · nlinarith

theorem small_value_bounds (u : ℝ) (h0 : 257 / 30000 < u) (h1 : u < 13 / 1500) :
    0 < u ^ 5 - 25 / 4 * (u - 1 / 100) * u ^ 4 ∧
      u ^ 5 - 25 / 4 * (u - 1 / 100) * u ^ 4 < (1 / 100 - 1 / 1000000 : ℝ) ^ 5 := by
  have hu0 : (0 : ℝ) < u := by linarith
  have hu4 : u ^ 4 < (13 / 1500 : ℝ) ^ 4 := pow_lt_pow_left₀ h1 hu0.le (by norm_num)
  have hu4pos : (0 : ℝ) < u ^ 4 := by positivity
  have e : u ^ 5 - 25 / 4 * (u - 1 / 100) * u ^ 4 = u ^ 4 * (1 / 16 - 21 / 4 * u) := by ring
  have hq0 : (0 : ℝ) < 1 / 16 - 21 / 4 * u := by linarith
  have hq1 : 1 / 16 - 21 / 4 * u < 17525 / 1000000 := by linarith
  rw [e]
  refine ⟨mul_pos hu4pos hq0, ?_⟩
  calc u ^ 4 * (1 / 16 - 21 / 4 * u)
      < (13 / 1500 : ℝ) ^ 4 * (17525 / 1000000) :=
        mul_lt_mul'' hu4 hq1 hu4pos.le hq0.le
    _ < (1 / 100 - 1 / 1000000 : ℝ) ^ 5 := by norm_num

/-- The run `a = 1/5`, `b = 1`, `p = 1/100` with the real functions and the forward
evaluator `I_x(a, 1) = x^a`: the loop stops after one pass. -/
theorem small_run (env : MathEnv ℝ) (h : IsRealEnv env)
    (hib : env.incomplete_beta = fun a _ x => x ^ a)
    (u : ℝ) (hu : u = 1 / 100 * ((1 / 6 : ℝ) ^ (1 / 5 : ℝ) + 1 / 6)) :
    0 < initial_guess env (1 / 5) 1 (1 / 100) ∧
    halley_loop env (1 / 5) 1 (1 / 100) (lbeta env (1 / 5) 1)
        (loop_init (initial_guess env (1 / 5) 1 (1 / 100)))
      = { value := u ^ 5 - 25 / 4 * (u - 1 / 100) * u ^ 4,
          halley_direc := 25 / 4 * (u - 1 / 100) * u ^ 4, iter := 1, ib_calls := 1 } := by
  obtain ⟨hb0, hb1⟩ := small_u_bounds u hu
  have hu0 : (0 : ℝ) < u := by linarith
  have hg : initial_guess env (1 / 5) 1 (1 / 100) = u ^ 5 := by
    rw [guess_small env h, hu]
  have hstep : halley_step env (1 / 5) 1 (1 / 100) (lbeta env (1 / 5) 1) (loop_init (u ^ 5))
      = { value := u ^ 5 - 25 / 4 * (u - 1 / 100) * u ^ 4,
          halley_direc := 25 / 4 * (u - 1 / 100) * u ^ 4, iter := 1, ib_calls := 1 } := by
    rw [halley_step_b_one env h hib (1 / 5) (1 / 100) (by norm_num) _
      (by simp only [loop_init]; positivity)]
    simp only [loop_init]
    rw [small_direc u hu0 (by linarith)]
    rw [if_neg (not_le.mpr (small_value_bounds u hb0 hb1).1)]
  rw [hg]
  refine ⟨by positivity, ?_⟩
  rw [halley_loop_of_cond _ _ _ _ _ _ (loop_cond_init _), hstep]
  apply halley_loop_of_not_cond
  rintro ⟨hc, -⟩
  have := small_direc_abs u hb0 hb1
  simp only [err_tol] at hc
  linarith

theorem small_run_outcome (env : MathEnv ℝ) (h : IsRealEnv env)
    (hib : env.incomplete_beta = fun a _ x => x ^ a) (ret0 : ℝ)
    (u : ℝ) (hu : u = 1 / 100 * ((1 / 6 : ℝ) ^ (1 / 5 : ℝ) + 1 / 6)) :
    incomplete_beta_inv env (1 / 5) 1 (1 / 100) ret0
      = { success := true, ret := u ^ 5 - 25 / 4 * (u - 1 / 100) * u ^ 4,
          lgamma_calls := 3, ib_calls := 1 } := by
  obtain ⟨hpos, hrun⟩ := small_run env h hib u hu
  obtain ⟨hb0, hb1⟩ := small_u_bounds u hu
  rw [inv_eq_of_pos env _ _ _ ret0 (by norm_num) hpos, hrun]
  rw [if_pos]
  refine ⟨?_, by simp [iter_max]⟩
  simp only [err_tol]
  exact small_direc_abs u hb0 hb1

theorem small_round_trip (u : ℝ) (h0 : 257 / 30000 < u) (h1 : u < 13 / 1500) :
    (u ^ 5 - 25 / 4 * (u - 1 / 100) * u ^ 4) ^ (1 / 5 : ℝ) < 1 / 100 - 1 / 1000000 := by
  obtain ⟨hv0, hv1⟩ := small_value_bounds u h0 h1
  have := Real.rpow_lt_rpow hv0.le hv1 (by norm_num : (0 : ℝ) < 1 / 5)
  rwa [fifth_root_of_fifth_power _ (by norm_num)] at this

end SmallQuantileRun

section StepTolerance

variable {α : Type} [LinearOrderedField α]

/-- C1 (amended): whenever the routine returns `true`, either `a = b = 1` and `ret = p`, or
`ret` is the outcome of a last Halley update taken from an iterate `x > 0` with
`|ret - x| < 1e-8`, at which the Newton ratio `(incomplete_beta(a,b,x) - p) / deriv_1(x)`
is smaller than `1.2e-8` in absolute value. -/
theorem C1_step_tolerance (env : MathEnv α) (a b p ret0 : α)
    (hs : (incomplete_beta_inv env a b p ret0).success = true) :
    (a = 1 ∧ b = 1 ∧ (incomplete_beta_inv env a b p ret0).ret = p) ∨
    ∃ x : α, 0 < x ∧
      |(incomplete_beta_inv env a b p ret0).ret - x| < 1 / 100000000 ∧
      |ratio_val_1 env a b p (lbeta env a b) x| < 12 / 1000000000 := by
  by_cases hab : a = 1 ∧ b = 1
  · left
    refine ⟨hab.1, hab.2, ?_⟩
    unfold incomplete_beta_inv
    rw [if_pos hab]
  · right
    have hpos : 0 < initial_guess env a b p := by
      by_contra hn
      rw [inv_eq_of_nonpos env a b p ret0 hab (not_lt.mp hn)] at hs
      exact absurd hs Bool.false_ne_true
    rw [inv_eq_of_pos env a b p ret0 hab hpos] at hs ⊢
    by_cases hc : |(halley_loop env a b p (lbeta env a b)
          (loop_init (initial_guess env a b p))).halley_direc| < err_tol ∧
        (halley_loop env a b p (lbeta env a b)
          (loop_init (initial_guess env a b p))).iter < iter_max
    · rw [if_pos hc]
      obtain ⟨prev, hprev, -, hlast⟩ :=
        halley_loop_last_inv env a b p (lbeta env a b) (fun st => 0 < st.value)
          (fun st h => halley_step_value_pos env a b p _ st h)
          (loop_init (initial_guess env a b p)) hpos (loop_cond_init _)
      have htol := hc.1
      rw [hlast] at htol ⊢
      simp only [err_tol] at htol
      obtain ⟨r2, hr2⟩ := halley_step_direc env a b p (lbeta env a b) prev
      have hge := abs_damped_direc_ge (ratio_val_1 env a b p (lbeta env a b) prev.value) r2
      rw [← hr2] at hge
      refine ⟨prev.value, hprev, ?_, ?_⟩
      · simp only
        rw [halley_step_value]
        split_ifs with hle
        · have h1 : prev.value ≤ |(halley_step env a b p (lbeta env a b) prev).halley_direc| :=
            le_trans (sub_nonpos.mp hle) (le_abs_self _)
          have e : 1 / 2 * prev.value - prev.value = - (1 / 2 * prev.value) := by ring
          rw [e, abs_neg, abs_of_pos (by linarith)]
          linarith
        · have e : prev.value - (halley_step env a b p (lbeta env a b) prev).halley_direc
              - prev.value = - (halley_step env a b p (lbeta env a b) prev).halley_direc := by
            ring
          rw [e, abs_neg]
          exact htol
      · rw [div_le_iff₀ (by norm_num)] at hge
        linarith
    · rw [if_neg hc] at hs
      exact absurd hs Bool.false_ne_true

end StepTolerance

section ClosedInstances

/-- C1 (counterexample): with the real functions and the forward evaluator
`I_x(a, 1) = x^a`, the valid input `a = 0.2`, `b = 1`, `p = 0.01` makes the routine return
`true` after a single step, yet the forward evaluator at the returned value misses `p` by
more than `1e-6`. -/
theorem C1_round_trip_fails :
    (0 : ℝ) < 1 / 5 ∧ (0 : ℝ) < 1 ∧ (0 : ℝ) < 1 / 100 ∧ (1 / 100 : ℝ) < 1 ∧
    (incomplete_beta_inv (⟨fun x => Real.log (Real.Gamma x), Real.log, Real.exp, Real.sqrt,
        fun x y => x ^ y, fun a _ x => x ^ a⟩ : MathEnv ℝ) (1 / 5) 1 (1 / 100) 0).success
      = true ∧
    ¬ (|MathEnv.incomplete_beta (⟨fun x => Real.log (Real.Gamma x), Real.log, Real.exp,
          Real.sqrt, fun x y => x ^ y, fun a _ x => x ^ a⟩ : MathEnv ℝ) (1 / 5) 1
        (incomplete_beta_inv (⟨fun x => Real.log (Real.Gamma x), Real.log, Real.exp,
          Real.sqrt, fun x y => x ^ y, fun a _ x => x ^ a⟩ : MathEnv ℝ)
          (1 / 5) 1 (1 / 100) 0).ret - 1 / 100| ≤ 1 / 1000000) := by
  have henv : IsRealEnv (⟨fun x => Real.log (Real.Gamma x), Real.log, Real.exp, Real.sqrt,
      fun x y => x ^ y, fun a _ x => x ^ a⟩ : MathEnv ℝ) := ⟨rfl, rfl, rfl, rfl, rfl⟩
  obtain ⟨hb0, hb1⟩ := small_u_bounds _ rfl
  refine ⟨by norm_num, by norm_num, by norm_num, by norm_num, ?_, ?_⟩
  · rw [small_run_outcome _ henv rfl 0 _ rfl]
  · rw [small_run_outcome _ henv rfl 0 _ rfl]
    have hrt := small_round_trip _ hb0 hb1
    intro hle
    have := (abs_le.mp hle).1
    simp only at this
    linarith

/-- Instance of C1 (amended) at the successful run `a = 0.2`, `b = 1`, `p = 0.01`. -/
theorem C1_step_tolerance_witness :
    (incomplete_beta_inv (⟨fun x => Real.log (Real.Gamma x), Real.log, Real.exp, Real.sqrt,
        fun x y => x ^ y, fun a _ x => x ^ a⟩ : MathEnv ℝ) (1 / 5) 1 (1 / 100) 0).success
      = true ∧
    (((1 / 5 : ℝ) = 1 ∧ (1 : ℝ) = 1 ∧
        (incomplete_beta_inv (⟨fun x => Real.log (Real.Gamma x), Real.log, Real.exp,
          Real.sqrt, fun x y => x ^ y, fun a _ x => x ^ a⟩ : MathEnv ℝ)
          (1 / 5) 1 (1 / 100) 0).ret = 1 / 100) ∨
      ∃ x : ℝ, 0 < x ∧
        |(incomplete_beta_inv (⟨fun x => Real.log (Real.Gamma x), Real.log, Real.exp,
          Real.sqrt, fun x y => x ^ y, fun a _ x => x ^ a⟩ : MathEnv ℝ)
          (1 / 5) 1 (1 / 100) 0).ret - x| < 1 / 100000000 ∧
        |ratio_val_1 (⟨fun x => Real.log (Real.Gamma x), Real.log, Real.exp,
          Real.sqrt, fun x y => x ^ y, fun a _ x => x ^ a⟩ : MathEnv ℝ) (1 / 5) 1 (1 / 100)
          (lbeta (⟨fun x => Real.log (Real.Gamma x), Real.log, Real.exp,
            Real.sqrt, fun x y => x ^ y, fun a _ x => x ^ a⟩ : MathEnv ℝ) (1 / 5) 1) x|
          < 12 / 1000000000) :=
  have hs : (incomplete_beta_inv (⟨fun x => Real.log (Real.Gamma x), Real.log, Real.exp,
      Real.sqrt, fun x y => x ^ y, fun a _ x => x ^ a⟩ : MathEnv ℝ)
      (1 / 5) 1 (1 / 100) 0).success = true := by
    rw [small_run_outcome _ ⟨rfl, rfl, rfl, rfl, rfl⟩ rfl 0 _ rfl]
  ⟨hs, C1_step_tolerance _ (1 / 5) 1 (1 / 100) 0 hs⟩

end ClosedInstances

section ClosedInstances2

/-- Instance of C4 with the real functions at `a = 2`, `b = 1`, `p = 0.9`, whose initial
guess is `0.5`. -/
theorem C4_success_classification_witness :
    ¬ ((2 : ℝ) = 1 ∧ (1 : ℝ) = 1) ∧
    0 < initial_guess (⟨fun x => Real.log (Real.Gamma x), Real.log, Real.exp, Real.sqrt,
        fun x y => x ^ y, fun a _ x => x ^ a⟩ : MathEnv ℝ) 2 1 (9 / 10) ∧
    ((incomplete_beta_inv (⟨fun x => Real.log (Real.Gamma x), Real.log, Real.exp,
        Real.sqrt, fun x y => x ^ y, fun a _ x => x ^ a⟩ : MathEnv ℝ) 2 1 (9 / 10) 0).success
      = true ↔
      (|(halley_loop (⟨fun x => Real.log (Real.Gamma x), Real.log, Real.exp,
          Real.sqrt, fun x y => x ^ y, fun a _ x => x ^ a⟩ : MathEnv ℝ) 2 1 (9 / 10)
          (lbeta (⟨fun x => Real.log (Real.Gamma x), Real.log, Real.exp,
            Real.sqrt, fun x y => x ^ y, fun a _ x => x ^ a⟩ : MathEnv ℝ) 2 1)
          (loop_init (initial_guess (⟨fun x => Real.log (Real.Gamma x), Real.log, Real.exp,
            Real.sqrt, fun x y => x ^ y, fun a _ x => x ^ a⟩ : MathEnv ℝ) 2 1
            (9 / 10)))).halley_direc| < 1 / 100000000 ∧
        (halley_loop (⟨fun x => Real.log (Real.Gamma x), Real.log, Real.exp,
          Real.sqrt, fun x y => x ^ y, fun a _ x => x ^ a⟩ : MathEnv ℝ) 2 1 (9 / 10)
          (lbeta (⟨fun x => Real.log (Real.Gamma x), Real.log, Real.exp,
            Real.sqrt, fun x y => x ^ y, fun a _ x => x ^ a⟩ : MathEnv ℝ) 2 1)
          (loop_init (initial_guess (⟨fun x => Real.log (Real.Gamma x), Real.log, Real.exp,
            Real.sqrt, fun x y => x ^ y, fun a _ x => x ^ a⟩ : MathEnv ℝ) 2 1
            (9 / 10)))).iter < 1000)) :=
  have hpos : 0 < initial_guess (⟨fun x => Real.log (Real.Gamma x), Real.log, Real.exp,
      Real.sqrt, fun x y => x ^ y, fun a _ x => x ^ a⟩ : MathEnv ℝ) 2 1 (9 / 10) := by
    rw [guess_2_1 _ ⟨rfl, rfl, rfl, rfl, rfl⟩]; norm_num
  ⟨by norm_num, hpos,
    (C4_success_classification _ 2 1 (9 / 10) 0 (by norm_num) hpos).1⟩

end ClosedInstances2

end Stats
